import Mathlib

/-!
Verification of the request-routing core of the Astro language server
(packages/language-server/src/server.ts).  The handlers wired up by
startLanguageServer are embedded as pure functions from event parameters to
lists of abstract actions (the calls the handler makes into its
collaborators), and the debounce/throttle pipeline for diagnostics is
embedded as a trace function from timed trigger sequences to timed
recompute sequences.
-/

namespace LangServer

/-- String constants used in concrete instances. -/
def browserEnv : String := "browser"

def astroSection : String := "astro"

def uriA : String := "file-a.astro"

def uriB : String := "file-b.astro"

def labelFoo : String := "foo"

def defaultBlob : String := "default"

def versionFull : String := "1.0.0"

/-- Configuration blob handled by the ConfigManager collaborator.
Modelled from the spec: ConfigManager (core/config/ConfigManager) is not part
of the extract; the configuration value is opaque to the core and
defaultLSConfig is the default value the core falls back to. -/
structure LSConfig where
  blob : String

deriving instance DecidableEq for LSConfig

def defaultLSConfig : LSConfig := ⟨defaultBlob⟩

structure TextDocumentIdentifier where
  uri : String

deriving instance DecidableEq for TextDocumentIdentifier

/-- Result of utils.getUserAstroVersion for a workspace root (server.ts line 50).
The lookup itself performs file-system access, so the embedding is
parametrized by an arbitrary oracle producing these records. -/
structure AstroVersionInfo where
  exist : Bool
  major : Nat
  minor : Nat
  patch : Nat
  full : String

deriving instance DecidableEq for AstroVersionInfo

/-- The options record passed to the plugin host at startup
(server.ts lines 69-72). -/
structure PluginHostConfig where
  filterIncompleteCompletions : Bool
  definitionLinkSupport : Bool

deriving instance DecidableEq for PluginHostConfig

/-- The plugins registered by the server (server.ts lines 75-82). -/
inductive Plugin where
  | html
  | css
  | astro
  | typescript

deriving instance DecidableEq for Plugin

/-- The plugin-host methods the feature handlers dispatch to
(server.ts lines 201-258). -/
inductive PHMethod where
  | doHover
  | getDefinitions
  | getFoldingRanges
  | getCodeActions
  | getCompletions
  | getDocumentSymbols
  | getSemanticTokens
  | getLinkedEditingRanges
  | formatDocument
  | getDocumentColors
  | getColorPresentations
  | getInlayHints
  | doTagComplete
  | getSignatureHelp
  | rename

deriving instance DecidableEq for PHMethod

/-- A dispatch into the plugin host: which method is called and whether the
connection handler forwards its cancellation token into the call. -/
structure DispatchCall where
  method : PHMethod
  forwardsCancellationToken : Bool

deriving instance DecidableEq for DispatchCall

/-- The feature-request kinds the server wires up (server.ts lines 201-258). -/
inductive Feature where
  | hover
  | definition
  | foldingRanges
  | codeAction
  | completion
  | documentSymbol
  | semanticTokensFull
  | semanticTokensRange
  | linkedEditingRanges
  | formatting
  | documentColor
  | colorPresentation
  | inlayHint
  | tagClose
  | signatureHelp
  | rename

deriving instance DecidableEq for Feature

/-- Translation of the feature handlers (server.ts lines 201-258): for each
feature kind, the plugin-host method invoked and whether the handler passes
the request cancellation token on into that call.  Handlers written as
`(evt, cancellationToken) => pluginHost.m(..., cancellationToken)` forward
the token; handlers written as `(evt) => pluginHost.m(...)` do not. -/
def featureDispatch : Feature → DispatchCall
  | Feature.hover => ⟨PHMethod.doHover, false⟩
  | Feature.definition => ⟨PHMethod.getDefinitions, false⟩
  | Feature.foldingRanges => ⟨PHMethod.getFoldingRanges, false⟩
  | Feature.codeAction => ⟨PHMethod.getCodeActions, true⟩
  | Feature.completion => ⟨PHMethod.getCompletions, false⟩
  | Feature.documentSymbol => ⟨PHMethod.getDocumentSymbols, true⟩
  | Feature.semanticTokensFull => ⟨PHMethod.getSemanticTokens, true⟩
  | Feature.semanticTokensRange => ⟨PHMethod.getSemanticTokens, true⟩
  | Feature.linkedEditingRanges => ⟨PHMethod.getLinkedEditingRanges, false⟩
  | Feature.formatting => ⟨PHMethod.formatDocument, false⟩
  | Feature.documentColor => ⟨PHMethod.getDocumentColors, false⟩
  | Feature.colorPresentation => ⟨PHMethod.getColorPresentations, false⟩
  | Feature.inlayHint => ⟨PHMethod.getInlayHints, true⟩
  | Feature.tagClose => ⟨PHMethod.doTagComplete, false⟩
  | Feature.signatureHelp => ⟨PHMethod.getSignatureHelp, true⟩
  | Feature.rename => ⟨PHMethod.rename, false⟩

/-- A completion item as seen by onCompletionResolve (server.ts lines 216-223):
only the data field (origin metadata, absent when the JS field is falsy)
matters to the handler. -/
structure CompletionItem where
  label : String
  data : Option TextDocumentIdentifier

deriving instance DecidableEq for CompletionItem

/-- Outcome of the resolve-completion-item handler: either the submitted item
returned unchanged, or a dispatch of (data, item) to
pluginHost.resolveCompletion. -/
inductive ResolveReply where
  | unchanged (item : CompletionItem)
  | fromPluginHost (d : TextDocumentIdentifier) (item : CompletionItem)

deriving instance DecidableEq for ResolveReply

/-- Translation of connection.onCompletionResolve (server.ts lines 216-223). -/
def onCompletionResolve (item : CompletionItem) : ResolveReply :=
  match item.data with
  | none => ResolveReply.unchanged item
  | some d => ResolveReply.fromPluginHost d item

/-- A watched file-system change as delivered by the transport
(server.ts lines 188-194): a uri plus a change-type code. -/
structure FileChange where
  uri : String
  changeType : Nat

deriving instance DecidableEq for FileChange

/-- The calls a handler makes into its collaborators.  Each constructor is one
call site in server.ts; handlers are embedded as the list of these calls they
perform, in program order. -/
inductive Action where
  | warnAstroMissing (uri : String)
  | warnAstroVersionUnsupported (full : String)
  | pluginHostSetup (opts : PluginHostConfig)
  | registerPlugin (p : Plugin)
  | configUpdateConfig
  | configGetConfig (scope : String) (uri : String)
  | configUpdateGlobalConfig (c : LSConfig)
  | configRemoveDocument (uri : String)
  | openDocument (uri : String)
  | markAsOpenedInClient (uri : String)
  | closeDocument (uri : String)
  | updateDocument (uri : String) (version : Nat)
  | onWatchFileChanges (changes : List (String × Nat))
  | triggerUpdateAllDiagnostics
  | dispatch (c : DispatchCall)
  | resolveCompletion (d : TextDocumentIdentifier)
  | updateNonAstroFile (path : String)
  | triggerDocumentDiagnostics (uri : String)
  | removeDiagnostics (uri : String)
  | updateImports (oldUri : String) (newUri : String)
  | consoleLog
  | clientRegisterConfigListener

deriving instance DecidableEq for Action

/-- The events handled outside the onInitialize handler: one constructor per
connection.on* / connection.onRequest / connection.onNotification /
documentManager.on registration in startLanguageServer.  State the handler
reads (hasConfigurationCapability, the set of documents opened by the client)
is passed explicitly. -/
inductive ServerEvent where
  | didChangeConfiguration (hasConfigurationCapability : Bool)
      (astroSetting : Option LSConfig) (openDocs : List String)
  | didOpenTextDocument (uri : String)
  | didCloseTextDocument (uri : String)
  | didChangeTextDocument (uri : String) (version : Nat)
  | didChangeWatchedFiles (changes : List FileChange)
  | featureRequest (f : Feature)
  | completionResolveRequest (item : CompletionItem)
  | didSaveTextDocument
  | nonAstroFileChange (uri : String)
  | documentChangeEvent (uri : String)
  | documentCloseEvent (uri : String)
  | fileRenameRequest (oldUri : String) (newUri : String)
  | initializedNotif (hasConfigurationCapability : Bool)

/-- Translation of the handlers registered in startLanguageServer outside
onInitialize (server.ts lines 156-293).  u2p stands for utils.urlToPath,
which is not part of the extract and is kept abstract. -/
def handleEvent (u2p : String → Option String) : ServerEvent → List Action
  | ServerEvent.didChangeConfiguration hasCap astroSetting openDocs =>
      if hasCap then
        Action.configUpdateConfig ::
          openDocs.map (fun uri => Action.configGetConfig astroSection uri)
      else
        [Action.configUpdateGlobalConfig (astroSetting.getD defaultLSConfig)]
  | ServerEvent.didOpenTextDocument uri =>
      [Action.openDocument uri, Action.markAsOpenedInClient uri]
  | ServerEvent.didCloseTextDocument uri => [Action.closeDocument uri]
  | ServerEvent.didChangeTextDocument uri version =>
      [Action.updateDocument uri version]
  | ServerEvent.didChangeWatchedFiles changes =>
      [Action.onWatchFileChanges
          ((changes.map (fun c => (u2p c.uri, c.changeType))).filterMap
            (fun x => match x.1 with
              | some fileName => some (fileName, x.2)
              | none => none)),
        Action.triggerUpdateAllDiagnostics]
  | ServerEvent.featureRequest f => [Action.dispatch (featureDispatch f)]
  | ServerEvent.completionResolveRequest item =>
      match item.data with
      | none => []
      | some d => [Action.resolveCompletion d]
  | ServerEvent.didSaveTextDocument => [Action.triggerUpdateAllDiagnostics]
  | ServerEvent.nonAstroFileChange uri =>
      (match u2p uri with
        | some path => [Action.updateNonAstroFile path]
        | none => []) ++ [Action.triggerUpdateAllDiagnostics]
  | ServerEvent.documentChangeEvent uri => [Action.triggerDocumentDiagnostics uri]
  | ServerEvent.documentCloseEvent uri =>
      [Action.removeDiagnostics uri, Action.configRemoveDocument uri]
  | ServerEvent.fileRenameRequest oldUri newUri =>
      [Action.updateImports oldUri newUri]
  | ServerEvent.initializedNotif hasCap =>
      Action.consoleLog ::
        (if hasCap then [Action.clientRegisterConfigListener] else [])

/-- The initializationOptions object of the InitParams (server.ts lines 70
and 79).  environment is none when the field is absent (JS undefined). -/
structure InitOptions where
  dontFilterIncompleteCompletions : Bool
  environment : Option String

deriving instance DecidableEq for InitOptions

/-- The client capabilities read by the handler: workspace.configuration
(server.ts line 67) and textDocument.definition.linkSupport (line 71),
each already coerced to a boolean as the source does with double negation. -/
structure ClientCapabilities where
  workspaceConfiguration : Bool
  definitionLinkSupport : Bool

deriving instance DecidableEq for ClientCapabilities

/-- The parameters of the onInitialize handler (server.ts line 44).
initializationOptions is none when the client sent no options object;
accessing environment on it then raises a TypeError in JS, recorded by the
crashed flag of the outcome. -/
structure InitParams where
  workspaceFolders : Option (List String)
  rootUri : Option String
  initializationOptions : Option InitOptions
  capabilities : ClientCapabilities

/-- Outcome of the onInitialize handler: collaborator calls in program order,
the captured hasConfigurationCapability flag, and whether the handler raised
before completing (the field access on line 79 with absent
initializationOptions). -/
structure InitOutcome where
  actions : List Action
  hasConfigurationCapability : Bool
  crashed : Bool

/-- Version checks over the workspace uris (server.ts lines 47-65).  gv
stands for getUserAstroVersion composed with urlToPath, kept abstract. -/
def versionChecks (gv : String → AstroVersionInfo) : List String → List Action
  | [] => []
  | uri :: rest =>
      (if (gv uri).exist = false then [Action.warnAstroMissing uri] else []) ++
        (if (gv uri).exist = true ∧ (gv uri).major = 0 ∧ (gv uri).minor < 24 ∧
            (gv uri).patch < 5 then
          [Action.warnAstroVersionUnsupported (gv uri).full]
        else []) ++
        versionChecks gv rest

/-- Translation of connection.onInitialize (server.ts lines 44-152). -/
def onInit (gv : String → AstroVersionInfo) (p : InitParams) : InitOutcome :=
  let workspaceUris :=
    match p.workspaceFolders with
    | some l => l
    | none => [p.rootUri.getD ""]
  let notifs := versionChecks gv workspaceUris
  let hasCap := p.capabilities.workspaceConfiguration
  let opts : PluginHostConfig :=
    ⟨!((p.initializationOptions.map InitOptions.dontFilterIncompleteCompletions).getD
        false),
      p.capabilities.definitionLinkSupport⟩
  let base := notifs ++
    [Action.pluginHostSetup opts, Action.registerPlugin Plugin.html,
      Action.registerPlugin Plugin.css]
  match p.initializationOptions with
  | none => ⟨base, hasCap, true⟩
  | some o =>
      if o.environment ≠ some browserEnv then
        ⟨base ++ [Action.registerPlugin Plugin.astro,
            Action.registerPlugin Plugin.typescript],
          hasCap, false⟩
      else
        ⟨base, hasCap, false⟩

/-- The plugin-host setup calls contained in an action list. -/
def phSetupCalls (acts : List Action) : List PluginHostConfig :=
  acts.filterMap (fun a =>
    match a with
    | Action.pluginHostSetup o => some o
    | _ => none)

/-- The plugin registrations contained in an action list, in order. -/
def regCalls (acts : List Action) : List Plugin :=
  acts.filterMap (fun a =>
    match a with
    | Action.registerPlugin p => some p
    | _ => none)

/-- Modelled from the spec: DiagnosticsManager.removeDiagnostics
(core/DiagnosticsManager is not part of the extract): publish an empty
diagnostic set for that URI so the client clears stale markers, then stop
tracking the document.  Returns the remaining tracked uris together with the
publication performed (uri, issued diagnostics). -/
def removeDiagnosticsModel (tracked : List String) (uri : String) :
    List String × (String × List String) :=
  (tracked.filter (fun u => u ≠ uri), (uri, []))

/-- Fire time of a pending debounced call: the interval I, the throttle
deadline d (previous invocation time plus I, 0 when nothing has fired yet)
and the time lt of the latest trigger determine when the pending call runs:
at the earlier of the quiet-period end (lt + I) and the throttle deadline,
but never before the latest trigger. -/
def fireTime (I d lt : Nat) : Nat := min (max d lt) (lt + I)

/-- Modelled from the spec: debounceThrottle from utils (not part of the
extract).  It combines debounce (wait for a quiet period after the last
trigger before invoking) with throttle (guarantee an invocation at least once
per interval under continuous triggers), both bounded by the same interval,
and each invocation receives the arguments of the latest trigger.  The trace
semantics processes a time-ordered list of (time, argument) triggers with the
pending call (argument, last trigger time) and the throttle deadline as
state, and returns the (time, argument) invocations in order. -/
def dtProcess (I : Nat) : Option (String × Nat) → Nat → List (Nat × String) →
    List (Nat × String)
  | none, _, [] => []
  | some (b, lt), d, [] => [(fireTime I d lt, b)]
  | none, d, (t, a) :: rest => dtProcess I (some (a, t)) d rest
  | some (b, lt), d, (t, a) :: rest =>
      if fireTime I d lt < t then
        (fireTime I d lt, b) :: dtProcess I (some (a, t)) (fireTime I d lt + I) rest
      else
        dtProcess I (some (a, t)) d rest

/-- The interval of the documentChange debounce (server.ts line 271). -/
def documentChangeDebounceMs : Nat := 1000

/-- The documentChange pipeline (server.ts lines 269-272): a single
debounceThrottle instance wrapping document => diagnosticsManager.update
with a 1000 ms interval, shared by the change events of every document.
Input: the (time, document uri) change triggers; output: the (time, uri)
diagnostics recomputes performed. -/
def documentChangeRecomputes (triggers : List (Nat × String)) :
    List (Nat × String) :=
  dtProcess documentChangeDebounceMs none 0 triggers

/-- Every invocation the trace produces is at or after time m, provided m is
below the throttle deadline, every remaining trigger fires no earlier than
m - I, and the current pending call fires no earlier than m. -/
theorem dtProcess_fires_ge (I m : Nat) :
    ∀ (rest : List (Nat × String)) (pend : Option (String × Nat)) (d : Nat),
      (∀ x ∈ rest, m ≤ x.1 + I) → m ≤ d →
      (∀ b lt, pend = some (b, lt) → m ≤ fireTime I d lt) →
      ∀ y ∈ dtProcess I pend d rest, m ≤ y.1 := by
  intro rest
  induction rest with
  | nil =>
      intro pend d _ _ hpend y hy
      match pend with
      | none => simp [dtProcess] at hy
      | some (b, lt) =>
          simp [dtProcess] at hy
          rw [hy]
          exact hpend b lt rfl
  | cons hd tl ih =>
      intro pend d hrest hd' hpend y hy
      obtain ⟨t, a⟩ := hd
      have hthd : m ≤ t + I := hrest (t, a) (List.mem_cons_self _ _)
      have htl : ∀ x ∈ tl, m ≤ x.1 + I := fun x hx =>
        hrest x (List.mem_cons_of_mem _ hx)
      match pend with
      | none =>
          rw [dtProcess] at hy
          refine ih (some (a, t)) d htl hd' ?_ y hy
          intro b lt h
          cases h
          unfold fireTime
          have h1 : m ≤ max d t := le_trans hd' (Nat.le_max_left _ _)
          exact le_min h1 hthd
      | some (b, lt) =>
          rw [dtProcess] at hy
          by_cases hf : fireTime I d lt < t
          · rw [if_pos hf] at hy
            rcases List.mem_cons.mp hy with h | h
            · rw [h]
              exact hpend b lt rfl
            · have hm : m ≤ fireTime I d lt := hpend b lt rfl
              refine ih (some (a, t)) (fireTime I d lt + I)
                htl (le_trans hm (Nat.le_add_right _ _)) ?_ y h
              intro b' lt' h'
              cases h'
              unfold fireTime
              have h1 : m ≤ max (fireTime I d lt + I) t :=
                le_trans (le_trans hm (Nat.le_add_right _ _)) (Nat.le_max_left _ _)
              exact le_min h1 hthd
          · rw [if_neg hf] at hy
            refine ih (some (a, t)) d htl hd' ?_ y hy
            intro b' lt' h'
            cases h'
            unfold fireTime
            have h1 : m ≤ max d t := le_trans hd' (Nat.le_max_left _ _)
            exact le_min h1 hthd

/-- Consecutive invocations of the trace are at least one interval apart:
the output is pairwise separated by I, given time-ordered triggers that do
not precede the pending trigger. -/
theorem dtProcess_pairwise_gap (I : Nat) :
    ∀ (rest : List (Nat × String)) (pend : Option (String × Nat)) (d : Nat),
      List.Pairwise (fun x y => x.1 ≤ y.1) rest →
      (∀ b lt, pend = some (b, lt) → ∀ x ∈ rest, lt ≤ x.1) →
      List.Pairwise (fun x y => x.1 + I ≤ y.1) (dtProcess I pend d rest) := by
  intro rest
  induction rest with
  | nil =>
      intro pend d _ _
      match pend with
      | none => simp [dtProcess]
      | some (b, lt) => simp [dtProcess]
  | cons hd tl ih =>
      intro pend d hsorted hpend
      obtain ⟨t, a⟩ := hd
      have hst : ∀ x ∈ tl, t ≤ x.1 := fun x hx =>
        (List.pairwise_cons.mp hsorted).1 x hx
      have hstl : List.Pairwise (fun x y => x.1 ≤ y.1) tl :=
        (List.pairwise_cons.mp hsorted).2
      match pend with
      | none =>
          rw [dtProcess]
          exact ih (some (a, t)) d hstl (by intro b lt h; cases h; exact hst)
      | some (b, lt) =>
          rw [dtProcess]
          by_cases hf : fireTime I d lt < t
          · rw [if_pos hf]
            refine List.pairwise_cons.mpr ⟨?_, ?_⟩
            · intro y hy
              refine dtProcess_fires_ge I (fireTime I d lt + I) tl (some (a, t))
                (fireTime I d lt + I) ?_ le_rfl ?_ y hy
              · intro x hx
                have : t ≤ x.1 := hst x hx
                omega
              · intro b' lt' h'
                cases h'
                unfold fireTime
                have h1 : fireTime I d lt + I ≤ max (fireTime I d lt + I) t :=
                  Nat.le_max_left _ _
                have h2 : fireTime I d lt + I ≤ t + I := by omega
                exact le_min h1 h2
            · exact ih (some (a, t)) (fireTime I d lt + I) hstl
                (by intro b' lt' h'; cases h'; exact hst)
          · rw [if_neg hf]
            exact ih (some (a, t)) d hstl (by intro b' lt' h'; cases h'; exact hst)

/-- When a pending call with trigger time lt between t and t + I is in
flight, with throttle deadline at most t + I and every remaining trigger no
earlier than lt, the trace produces an invocation inside the window
[t, t + I]. -/
theorem dtProcess_fire_within_of_pending (I t : Nat) :
    ∀ (rest : List (Nat × String)) (b : String) (lt d : Nat),
      List.Pairwise (fun x y => x.1 ≤ y.1) rest →
      (∀ x ∈ rest, lt ≤ x.1) →
      t ≤ lt → lt ≤ t + I → d ≤ t + I →
      ∃ y ∈ dtProcess I (some (b, lt)) d rest, t ≤ y.1 ∧ y.1 ≤ t + I := by
  intro rest
  induction rest with
  | nil =>
      intro b lt d _ _ htlt hltI hdI
      refine ⟨(fireTime I d lt, b), by simp [dtProcess], ?_, ?_⟩
      · unfold fireTime
        omega
      · unfold fireTime
        omega
  | cons hd tl ih =>
      intro b lt d hsorted hbound htlt hltI hdI
      obtain ⟨t', a'⟩ := hd
      have hst : ∀ x ∈ tl, t' ≤ x.1 := fun x hx =>
        (List.pairwise_cons.mp hsorted).1 x hx
      have hstl : List.Pairwise (fun x y => x.1 ≤ y.1) tl :=
        (List.pairwise_cons.mp hsorted).2
      have hltt' : lt ≤ t' := hbound (t', a') (List.mem_cons_self _ _)
      rw [dtProcess]
      by_cases hf : fireTime I d lt < t'
      · rw [if_pos hf]
        refine ⟨(fireTime I d lt, b), List.mem_cons_self _ _, ?_, ?_⟩
        · unfold fireTime
          omega
        · unfold fireTime
          omega
      · rw [if_neg hf]
        have hft : fireTime I d lt ≤ t + I := by
          unfold fireTime
          omega
        have ht'le : t' ≤ t + I := by
          unfold fireTime at hf
          omega
        have htt' : t ≤ t' := le_trans htlt hltt'
        exact ih a' t' d hstl hst htt' ht'le hdI

/-- Every trigger in the input is followed by an invocation within one
interval: if (t, a) is among the time-ordered triggers, the throttle deadline
is at most t + I and any pending call was triggered no later than t, then
some invocation lands in the window [t, t + I]. -/
theorem dtProcess_trigger_fires (I t : Nat) (a : String) :
    ∀ (triggers : List (Nat × String)) (pend : Option (String × Nat)) (d : Nat),
      List.Pairwise (fun x y => x.1 ≤ y.1) triggers →
      (t, a) ∈ triggers →
      d ≤ t + I →
      (∀ b lt, pend = some (b, lt) → lt ≤ t ∧ ∀ x ∈ triggers, lt ≤ x.1) →
      ∃ y ∈ dtProcess I pend d triggers, t ≤ y.1 ∧ y.1 ≤ t + I := by
  intro triggers
  induction triggers with
  | nil => intro pend d _ hmem; exact absurd hmem (List.not_mem_nil _)
  | cons hd tl ih =>
      intro pend d hsorted hmem hdI hpend
      obtain ⟨t', a'⟩ := hd
      have hst : ∀ x ∈ tl, t' ≤ x.1 := fun x hx =>
        (List.pairwise_cons.mp hsorted).1 x hx
      have hstl : List.Pairwise (fun x y => x.1 ≤ y.1) tl :=
        (List.pairwise_cons.mp hsorted).2
      rcases List.mem_cons.mp hmem with hhead | htail
      · have ht' : t' = t := congrArg Prod.fst hhead.symm
        subst ht'
        match pend with
        | none =>
            rw [dtProcess]
            exact dtProcess_fire_within_of_pending I t' tl a' t' d hstl hst
              le_rfl (Nat.le_add_right _ _) hdI
        | some (b, lt) =>
            rw [dtProcess]
            by_cases hf : fireTime I d lt < t'
            · rw [if_pos hf]
              have hd' : fireTime I d lt + I ≤ t' + I := by omega
              obtain ⟨y, hy, hy1, hy2⟩ :=
                dtProcess_fire_within_of_pending I t' tl a' t'
                  (fireTime I d lt + I) hstl hst le_rfl (Nat.le_add_right _ _) hd'
              exact ⟨y, List.mem_cons_of_mem _ hy, hy1, hy2⟩
            · rw [if_neg hf]
              exact dtProcess_fire_within_of_pending I t' tl a' t' d hstl hst
                le_rfl (Nat.le_add_right _ _) hdI
      · have ht't : t' ≤ t := by
          have := hst (t, a) htail
          exact this
        match pend with
        | none =>
            rw [dtProcess]
            exact ih (some (a', t')) d hstl htail hdI
              (by intro b lt h; cases h; exact ⟨ht't, hst⟩)
        | some (b, lt) =>
            rw [dtProcess]
            by_cases hf : fireTime I d lt < t'
            · rw [if_pos hf]
              have hd' : fireTime I d lt + I ≤ t + I := by omega
              obtain ⟨y, hy, hy1, hy2⟩ :=
                ih (some (a', t')) (fireTime I d lt + I) hstl htail hd'
                  (by intro b' lt' h'; cases h'; exact ⟨ht't, hst⟩)
              exact ⟨y, List.mem_cons_of_mem _ hy, hy1, hy2⟩
            · rw [if_neg hf]
              exact ih (some (a', t')) d hstl htail hdI
                (by intro b' lt' h'; cases h'; exact ⟨ht't, hst⟩)

theorem phSetupCalls_nil : phSetupCalls [] = [] := rfl

theorem phSetupCalls_append (l1 l2 : List Action) :
    phSetupCalls (l1 ++ l2) = phSetupCalls l1 ++ phSetupCalls l2 :=
  List.filterMap_append _ _ _

theorem phSetupCalls_cons_setup (o : PluginHostConfig) (l : List Action) :
    phSetupCalls (Action.pluginHostSetup o :: l) = o :: phSetupCalls l := rfl

theorem phSetupCalls_cons_reg (p : Plugin) (l : List Action) :
    phSetupCalls (Action.registerPlugin p :: l) = phSetupCalls l := rfl

theorem phSetupCalls_versionChecks (gv : String → AstroVersionInfo) :
    ∀ uris, phSetupCalls (versionChecks gv uris) = [] := by
  intro uris
  induction uris with
  | nil => rfl
  | cons u rest ih =>
      rw [versionChecks, phSetupCalls, List.filterMap_append, List.filterMap_append]
      rw [phSetupCalls] at ih
      rw [ih]
      split <;> split <;> rfl

theorem regCalls_nil : regCalls [] = [] := rfl

theorem regCalls_append (l1 l2 : List Action) :
    regCalls (l1 ++ l2) = regCalls l1 ++ regCalls l2 :=
  List.filterMap_append _ _ _

theorem regCalls_cons_setup (o : PluginHostConfig) (l : List Action) :
    regCalls (Action.pluginHostSetup o :: l) = regCalls l := rfl

theorem regCalls_cons_reg (p : Plugin) (l : List Action) :
    regCalls (Action.registerPlugin p :: l) = p :: regCalls l := rfl

theorem regCalls_versionChecks (gv : String → AstroVersionInfo) :
    ∀ uris, regCalls (versionChecks gv uris) = [] := by
  intro uris
  induction uris with
  | nil => rfl
  | cons u rest ih =>
      rw [versionChecks, regCalls, List.filterMap_append, List.filterMap_append]
      rw [regCalls] at ih
      rw [ih]
      split <;> split <;> rfl

/-- Concrete inputs used by witnesses. -/
def capsNone : ClientCapabilities := ⟨false, false⟩

def browserOpts : InitOptions := ⟨false, some browserEnv⟩

def browserParams : InitParams := ⟨none, none, some browserOpts, capsNone⟩

def gvConst : String → AstroVersionInfo := fun _ => ⟨true, 1, 0, 0, versionFull⟩

/-- C1 (counterexample): the documentChange coalescing is not keyed per
document.  With triggers for document A at 0 ms, document B at 1 ms and
document A again at 2 ms, the single shared debounce-throttle instance
recomputes diagnostics at 0 ms and 1000 ms, both times for document A;
document B receives an edit notification but no recompute ever runs for it,
contradicting the claim that interleaved triggers for two different documents
each still produce a recompute for their own document. -/
theorem C1_not_keyed_per_document :
    (1, uriB) ∈ [(0, uriA), (1, uriB), (2, uriA)] ∧
    documentChangeRecomputes [(0, uriA), (1, uriB), (2, uriA)] =
      [(0, uriA), (1000, uriA)] ∧
    ∀ y ∈ documentChangeRecomputes [(0, uriA), (1, uriB), (2, uriA)],
      y.2 ≠ uriB := by
  refine ⟨by decide, by decide, by decide⟩

/-- C1 (amended): the documentChange handler coalesces rapid successive
change triggers through one shared debounce-throttle instance with a 1000 ms
interval, not one instance per document: for every time-ordered trigger
sequence, consecutive recomputes are at least 1000 ms apart (so at most one
recompute runs per 1000 ms window, for all documents together), and every
trigger is followed by a recompute within 1000 ms (so a continuous stream of
edits still yields at least one recompute per interval) — but each recompute
runs for the most recently triggering document only, so interleaved triggers
for two documents need not each produce a recompute for their own document. -/
theorem C1_debounce_shared (triggers : List (Nat × String))
    (hsorted : List.Pairwise (fun x y => x.1 ≤ y.1) triggers) :
    List.Pairwise (fun x y => x.1 + documentChangeDebounceMs ≤ y.1)
        (documentChangeRecomputes triggers) ∧
    ∀ t uri, (t, uri) ∈ triggers →
      ∃ y ∈ documentChangeRecomputes triggers,
        t ≤ y.1 ∧ y.1 ≤ t + documentChangeDebounceMs := by
  constructor
  · exact dtProcess_pairwise_gap documentChangeDebounceMs triggers none 0 hsorted
      (fun b lt h => Option.noConfusion h)
  · intro t uri hmem
    exact dtProcess_trigger_fires documentChangeDebounceMs t uri triggers none 0
      hsorted hmem (Nat.zero_le _) (fun b lt h => Option.noConfusion h)

/-- Witness for C1_debounce_shared at the one-trigger input [(0, uriA)]. -/
theorem C1_debounce_shared_witness :
    List.Pairwise (fun x y => x.1 ≤ y.1) [(0, uriA)] ∧
    (List.Pairwise (fun x y => x.1 + documentChangeDebounceMs ≤ y.1)
        (documentChangeRecomputes [(0, uriA)]) ∧
      ∀ t uri, (t, uri) ∈ [(0, uriA)] →
        ∃ y ∈ documentChangeRecomputes [(0, uriA)],
          t ≤ y.1 ∧ y.1 ≤ t + documentChangeDebounceMs) :=
  ⟨by decide, C1_debounce_shared [(0, uriA)] (by decide)⟩

/-- C2 (counterexample): a configuration-change signal does not trigger a
full diagnostics recompute.  At the concrete event where the client supports
dynamic configuration, pushes no settings and no documents are open (and
likewise when it does not support dynamic configuration), the handler
performs no updateAll trigger, contradicting the claim that updateAll is
triggered after each of the three listed event kinds. -/
theorem C2_config_change_no_updateAll :
    Action.triggerUpdateAllDiagnostics ∉
        handleEvent (fun s => some s)
          (ServerEvent.didChangeConfiguration true none []) ∧
    Action.triggerUpdateAllDiagnostics ∉
        handleEvent (fun s => some s)
          (ServerEvent.didChangeConfiguration false none []) := by
  refine ⟨by decide, by decide⟩

/-- C2 (amended): the debounced updateAll trigger runs after every
watched-file-system change batch and after every document save, but the
configuration-change handler never triggers it. -/
theorem C2_updateAll_triggers :
    (∀ (u2p : String → Option String) (changes : List FileChange),
        Action.triggerUpdateAllDiagnostics ∈
          handleEvent u2p (ServerEvent.didChangeWatchedFiles changes)) ∧
    (∀ (u2p : String → Option String),
        handleEvent u2p ServerEvent.didSaveTextDocument =
          [Action.triggerUpdateAllDiagnostics]) ∧
    (∀ (u2p : String → Option String) (hasCap : Bool)
        (astroSetting : Option LSConfig) (openDocs : List String),
        Action.triggerUpdateAllDiagnostics ∉
          handleEvent u2p
            (ServerEvent.didChangeConfiguration hasCap astroSetting openDocs)) := by
  refine ⟨?_, ?_, ?_⟩
  · intro u2p changes
    simp [handleEvent]
  · intro u2p
    rfl
  · intro u2p hasCap astroSetting openDocs
    cases hasCap <;> simp [handleEvent]

/-- C3 (counterexample): the hover, definition and rename handlers dispatch
into the plugin host without forwarding any cancellation token, contradicting
the claim that every feature dispatch accepts and forwards one. -/
theorem C3_hover_no_token :
    (featureDispatch Feature.hover).forwardsCancellationToken = false ∧
    (featureDispatch Feature.definition).forwardsCancellationToken = false ∧
    (featureDispatch Feature.rename).forwardsCancellationToken = false := by
  refine ⟨rfl, rfl, rfl⟩

/-- C3 (amended): exactly the code action, document symbol, semantic tokens
(full and range), inlay hint and signature help dispatches forward a
cancellation token into the plugin host; the hover, definition, folding
range, completion, linked editing range, formatting, document color, color
presentation, tag close and rename dispatches do not. -/
theorem C3_token_forwarding (f : Feature) :
    (featureDispatch f).forwardsCancellationToken = true ↔
      (f = Feature.codeAction ∨ f = Feature.documentSymbol ∨
        f = Feature.semanticTokensFull ∨ f = Feature.semanticTokensRange ∨
        f = Feature.inlayHint ∨ f = Feature.signatureHelp) := by
  cases f <;> simp [featureDispatch]

/-- C4: when documentClose fires, the handler calls exactly
diagnosticsManager.removeDiagnostics and configManager.removeDocument for
that document, in that order and nothing else; removeDiagnostics publishes an
empty diagnostic set for the URI and stops tracking the document. -/
theorem C4_close_clears (u2p : String → Option String) (uri : String)
    (tracked : List String) :
    handleEvent u2p (ServerEvent.documentCloseEvent uri) =
        [Action.removeDiagnostics uri, Action.configRemoveDocument uri] ∧
    (removeDiagnosticsModel tracked uri).2 = (uri, []) ∧
    uri ∉ (removeDiagnosticsModel tracked uri).1 := by
  refine ⟨rfl, rfl, ?_⟩
  simp [removeDiagnosticsModel]

/-- C5: on a configuration-change signal exactly one of two delivery modes
runs: with dynamic-configuration support the handler invalidates the config
cache and re-fetches the astro configuration for every currently open
document; without it the handler installs the pushed configuration blob
(or the default when none was pushed) as the new global default. -/
theorem C5_config_modes (u2p : String → Option String)
    (astroSetting : Option LSConfig) (openDocs : List String) :
    handleEvent u2p
        (ServerEvent.didChangeConfiguration true astroSetting openDocs) =
      Action.configUpdateConfig ::
        openDocs.map (fun uri => Action.configGetConfig astroSection uri) ∧
    handleEvent u2p
        (ServerEvent.didChangeConfiguration false astroSetting openDocs) =
      [Action.configUpdateGlobalConfig (astroSetting.getD defaultLSConfig)] :=
  ⟨rfl, rfl⟩

/-- C6: the plugin-host options are computed and captured exactly once, in
the onInitialize handler — filterIncompleteCompletions as the negation of the
dontFilterIncompleteCompletions option and definitionLinkSupport from the
client definition.linkSupport capability — and no handler outside
onInitialize ever performs a plugin-host setup call. -/
theorem C6_options_captured_once :
    (∀ (gv : String → AstroVersionInfo) (p : InitParams),
        phSetupCalls (onInit gv p).actions =
          [⟨!((p.initializationOptions.map
                InitOptions.dontFilterIncompleteCompletions).getD false),
            p.capabilities.definitionLinkSupport⟩]) ∧
    (∀ (u2p : String → Option String) (e : ServerEvent) (o : PluginHostConfig),
        Action.pluginHostSetup o ∉ handleEvent u2p e) := by
  constructor
  · intro gv p
    cases hio : p.initializationOptions with
    | none =>
        simp [onInit, hio, phSetupCalls_append, phSetupCalls_versionChecks,
          phSetupCalls_cons_setup, phSetupCalls_cons_reg, phSetupCalls_nil]
    | some o =>
        by_cases he : o.environment ≠ some browserEnv
        · simp [onInit, hio, he, phSetupCalls_append, phSetupCalls_versionChecks,
            phSetupCalls_cons_setup, phSetupCalls_cons_reg, phSetupCalls_nil]
        · simp [onInit, hio, he, phSetupCalls_append, phSetupCalls_versionChecks,
            phSetupCalls_cons_setup, phSetupCalls_cons_reg, phSetupCalls_nil]
  · intro u2p e o
    cases e <;> simp only [handleEvent] <;> (try split) <;> simp

/-- C7: the provider registry is built as an ordered list only inside the
onInitialize handler — HTML first, then CSS, then outside a browser
environment the Astro and TypeScript plugins in that order — and no other
handler ever registers a plugin. -/
theorem C7_registry_only_at_startup :
    (∀ (gv : String → AstroVersionInfo) (p : InitParams),
        regCalls (onInit gv p).actions =
          [Plugin.html, Plugin.css] ++
            (match p.initializationOptions with
              | some o =>
                  if o.environment ≠ some browserEnv then
                    [Plugin.astro, Plugin.typescript]
                  else []
              | none => [])) ∧
    (∀ (u2p : String → Option String) (e : ServerEvent) (pl : Plugin),
        Action.registerPlugin pl ∉ handleEvent u2p e) := by
  constructor
  · intro gv p
    cases hio : p.initializationOptions with
    | none =>
        simp [onInit, hio, regCalls_append, regCalls_versionChecks,
          regCalls_cons_setup, regCalls_cons_reg, regCalls_nil]
    | some o =>
        by_cases he : o.environment ≠ some browserEnv
        · simp [onInit, hio, he, regCalls_append, regCalls_versionChecks,
            regCalls_cons_setup, regCalls_cons_reg, regCalls_nil]
        · simp [onInit, hio, he, regCalls_append, regCalls_versionChecks,
            regCalls_cons_setup, regCalls_cons_reg, regCalls_nil]
  · intro u2p e pl
    cases e <;> simp only [handleEvent] <;> (try split) <;> simp

/-- C8: when a pushed configuration-change notification carries no astro
settings value and the environment lacks dynamic-configuration support, the
handler installs the default configuration value instead of failing. -/
theorem C8_default_config_fallback (u2p : String → Option String)
    (openDocs : List String) :
    handleEvent u2p (ServerEvent.didChangeConfiguration false none openDocs) =
      [Action.configUpdateGlobalConfig defaultLSConfig] := rfl

/-- C9: a completion item submitted to the resolve handler without origin
metadata (absent data field) is returned unchanged without any provider
dispatch; an item carrying data is routed to pluginHost.resolveCompletion
with that data. -/
theorem C9_resolve_passthrough (item : CompletionItem) :
    (item.data = none →
        onCompletionResolve item = ResolveReply.unchanged item) ∧
    ∀ d, item.data = some d →
      onCompletionResolve item = ResolveReply.fromPluginHost d item := by
  constructor
  · intro h
    simp [onCompletionResolve, h]
  · intro d h
    simp [onCompletionResolve, h]

/-- Witness for C9_resolve_passthrough at concrete items with and without
origin metadata. -/
theorem C9_resolve_passthrough_witness :
    ((⟨labelFoo, none⟩ : CompletionItem).data = none ∧
      onCompletionResolve ⟨labelFoo, none⟩ =
        ResolveReply.unchanged ⟨labelFoo, none⟩) ∧
    ((⟨labelFoo, some ⟨uriA⟩⟩ : CompletionItem).data = some ⟨uriA⟩ ∧
      onCompletionResolve ⟨labelFoo, some ⟨uriA⟩⟩ =
        ResolveReply.fromPluginHost ⟨uriA⟩ ⟨labelFoo, some ⟨uriA⟩⟩) :=
  ⟨⟨rfl, (C9_resolve_passthrough ⟨labelFoo, none⟩).1 rfl⟩,
    ⟨rfl, (C9_resolve_passthrough ⟨labelFoo, some ⟨uriA⟩⟩).2 ⟨uriA⟩ rfl⟩⟩

/-- C10: when initializationOptions are present, the Astro and TypeScript
plugins are registered iff the environment option differs from browser, and
in a browser environment exactly the HTML and CSS plugins are registered. -/
theorem C10_browser_restricts_plugins (gv : String → AstroVersionInfo)
    (p : InitParams) (o : InitOptions)
    (h : p.initializationOptions = some o) :
    ((Plugin.astro ∈ regCalls (onInit gv p).actions ∧
        Plugin.typescript ∈ regCalls (onInit gv p).actions) ↔
      o.environment ≠ some browserEnv) ∧
    (o.environment = some browserEnv →
      regCalls (onInit gv p).actions = [Plugin.html, Plugin.css]) := by
  have hreg : regCalls (onInit gv p).actions =
      [Plugin.html, Plugin.css] ++
        (if o.environment ≠ some browserEnv then
          [Plugin.astro, Plugin.typescript]
        else []) := by
    by_cases he : o.environment ≠ some browserEnv
    · simp [onInit, h, he, regCalls_append, regCalls_versionChecks,
        regCalls_cons_setup, regCalls_cons_reg, regCalls_nil]
    · simp [onInit, h, he, regCalls_append, regCalls_versionChecks,
        regCalls_cons_setup, regCalls_cons_reg, regCalls_nil]
  rw [hreg]
  by_cases he : o.environment = some browserEnv
  · rw [if_neg (by simp [he])]
    constructor
    · simp [he]
    · intro _
      rfl
  · rw [if_pos (by simpa using he)]
    constructor
    · simp [he]
    · intro hcon
      exact absurd hcon he

/-- Witness for C10_browser_restricts_plugins at concrete browser-environment
parameters. -/
theorem C10_browser_restricts_plugins_witness :
    browserParams.initializationOptions = some browserOpts ∧
    (((Plugin.astro ∈ regCalls (onInit gvConst browserParams).actions ∧
        Plugin.typescript ∈ regCalls (onInit gvConst browserParams).actions) ↔
      browserOpts.environment ≠ some browserEnv) ∧
    (browserOpts.environment = some browserEnv →
      regCalls (onInit gvConst browserParams).actions =
        [Plugin.html, Plugin.css])) :=
  ⟨rfl, C10_browser_restricts_plugins gvConst browserParams browserOpts rfl⟩

end LangServer
